import Mathlib

/-!
Verification of the matrix utility library
(`matrix_project_capital/my_matrix_app/utils_library.py`).

The development embeds the three core components of the library:

* the grid parser (the comprehension pipeline shared by `start_matrix_data`
  and `get_matrix`), modelled on `List Char` text;
* the counterclockwise spiral traversal `counterclockwise_traversal`,
  modelled with `Option`-valued list indexing so that any out-of-range
  access of the Python code would be observable as `none`;
* the fetch-and-normalize gateway `get_matrix`, modelled as a function of
  the single network interaction outcome.

Python strings are modelled as `List Char`; the whitespace set of
`str.strip` is modelled by its ASCII part, and `int` is modelled on
optionally signed decimal digit strings, which covers every value the
repository processes.
-/

/-- The character list of a string literal (model of Python `str`). -/
def chars (s : String) : List Char := s.data

/-- Decimal rendering of a natural number, as used by an f-string for an
HTTP status code. -/
def natChars (n : Nat) : List Char := (Nat.repr n).data

/-- The ASCII whitespace characters stripped by Python `str.strip()`. -/
def isPySpace (c : Char) : Bool :=
  c == ' ' || c == '\t' || c == '\n' || c == '\x0b' || c == '\x0c' || c == '\r'

/-- Model of Python `str.strip()`: drop whitespace from both ends. -/
def pyStrip (l : List Char) : List Char :=
  ((l.dropWhile isPySpace).reverse.dropWhile isPySpace).reverse

/-- Model of Python `str.split(sep)` for a one-character separator `sep`
(the library splits on a newline and on a pipe character). -/
def splitOnChar (sep : Char) : List Char → List (List Char)
  | [] => [[]]
  | c :: rest =>
    let r := splitOnChar sep rest
    if c = sep then [] :: r
    else
      match r with
      | [] => [[c]]
      | h :: t => (c :: h) :: t

/-- Value of a list of decimal digits. -/
def digitsVal (l : List Char) : Nat :=
  l.foldl (fun acc c => acc * 10 + (c.toNat - 48)) 0

/-- The single-quote character used in the message of a Python
`ValueError` raised by `int`. -/
def quoteChar : Char := Char.ofNat 39

/-- The message of the `ValueError` raised by Python `int` on a
non-numeric field. -/
def intErrMsg (s : List Char) : List Char :=
  chars "invalid literal for int() with base 10: " ++ quoteChar :: (s ++ [quoteChar])

/-- Model of Python `int(s)`: strip whitespace, allow one optional sign,
then require a non-empty run of decimal digits; otherwise raise
`ValueError` (modelled as `Except.error` carrying the message). -/
def pyInt (s : List Char) : Except (List Char) Int :=
  match pyStrip s with
  | '+' :: digits =>
    if digits ≠ [] ∧ digits.all Char.isDigit then .ok (digitsVal digits)
    else .error (intErrMsg s)
  | '-' :: digits =>
    if digits ≠ [] ∧ digits.all Char.isDigit then .ok (-(digitsVal digits : Int))
    else .error (intErrMsg s)
  | digits =>
    if digits ≠ [] ∧ digits.all Char.isDigit then .ok (digitsVal digits)
    else .error (intErrMsg s)

/-- Left-to-right effectful map, the model of a Python list comprehension
whose element expression may raise: the first raise aborts the whole
comprehension. -/
def emap {ε α β : Type} (f : α → Except ε β) : List α → Except ε (List β)
  | [] => .ok []
  | a :: l =>
    match f a with
    | .error e => .error e
    | .ok b =>
      match emap f l with
      | .error e => .error e
      | .ok bs => .ok (b :: bs)

/-- The inline parsing step of `get_matrix` (utils_library.py lines 93-94):

    rows = the comprehension over text.strip().split of a newline, keeping
      lines with a non-empty strip, each line stripped, split on a pipe and
      with its first and last fields dropped;
    matrix = each remaining non-empty row converted by int.

Any `int` failure raises, modelled by `Except.error`. -/
def get_matrix_parse (text : List Char) : Except (List Char) (List (List Int)) :=
  let rows :=
    ((splitOnChar '\n' (pyStrip text)).filter (fun row => !(pyStrip row).isEmpty)).map
      (fun row => ((splitOnChar '|' (pyStrip row)).drop 1).dropLast)
  emap (fun row => emap pyInt row) (rows.filter (fun row => !row.isEmpty))

/-- The parsing step of `start_matrix_data` (utils_library.py lines 22-24),
applied to the fetched response body: the body is stripped once into
`matrix_text`, then the same comprehension pipeline as in `get_matrix`
runs on `matrix_text` (stripping it again). The network fetch itself is
abstracted into the `body` argument. -/
def start_matrix_data_parse (body : List Char) : Except (List Char) (List (List Int)) :=
  let matrix_text := pyStrip body
  let rows :=
    ((splitOnChar '\n' (pyStrip matrix_text)).filter (fun row => !(pyStrip row).isEmpty)).map
      (fun row => ((splitOnChar '|' (pyStrip row)).drop 1).dropLast)
  emap (fun row => emap pyInt row) (rows.filter (fun row => !row.isEmpty))

/-! ### The spiral traversal engine -/

/-- Model of Python `range(a, b)` over mathematical integers. -/
def rangeAsc (a b : Int) : List Int :=
  (List.range (b - a).toNat).map (fun (i : Nat) => a + (i : Int))

/-- Model of Python `range(a, b, -1)` over mathematical integers. -/
def rangeDesc (a b : Int) : List Int :=
  (List.range (a - b).toNat).map (fun (i : Nat) => a - (i : Int))

/-- The read `matrix[row][col]` of the traversal: `none` exactly when the
index pair is outside the grid (a negative or too large index, which in
the Python source would wrap or raise `IndexError` instead of reading the
intended cell). -/
def getCell (m : List (List Int)) (r c : Int) : Option Int :=
  if 0 ≤ r ∧ 0 ≤ c then
    match m.get? r.toNat with
    | none => none
    | some row => row.get? c.toNat
  else none

/-- Total cell access with default `0`, used by the specification-side
ring-peeling description (which presupposes a well-formed grid). -/
def cellD (m : List (List Int)) (r c : Int) : Int :=
  (m.getD r.toNat []).getD c.toNat 0

/-- Effectful map over `Option`: models a Python `for` loop of appends in
which any single read may raise. -/
def omap {α β : Type} (f : α → Option β) : List α → Option (List β)
  | [] => some []
  | a :: l =>
    match f a, omap f l with
    | some b, some bs => some (b :: bs)
    | _, _ => none

/-- The `while` loop of `counterclockwise_traversal`
(utils_library.py lines 48-69), one recursive step per iteration:

* up: rows `row_start .. row_end` of column `col_start`, then
  `col_start` is incremented;
* left: columns `col_start .. col_end` (updated `col_start`) of row
  `row_end`, then `row_end` is decremented;
* if `col_start <= col_end`: down: rows `row_end .. row_start`
  descending of column `col_end`, then `col_end` is decremented;
* if `row_start <= row_end`: right: columns `col_end .. col_start`
  descending of row `row_start`, then `row_start` is incremented.

The result is `none` exactly when some read was out of range. -/
def ccwLoop (m : List (List Int)) (row_start row_end col_start col_end : Int) :
    Option (List Int) :=
  if _h : row_start ≤ row_end ∧ col_start ≤ col_end then
    let up := omap (fun row => getCell m row col_start) (rangeAsc row_start (row_end + 1))
    let left := omap (fun col => getCell m row_end col) (rangeAsc (col_start + 1) (col_end + 1))
    let down :=
      if col_start + 1 ≤ col_end then
        omap (fun row => getCell m row col_end) (rangeDesc (row_end - 1) (row_start - 1))
      else some []
    let right :=
      if row_start ≤ row_end - 1 then
        omap (fun col => getCell m row_start col)
          (rangeDesc (if col_start + 1 ≤ col_end then col_end - 1 else col_end) (col_start + 1 - 1))
      else some []
    match up, left, down, right,
      ccwLoop m (if row_start ≤ row_end - 1 then row_start + 1 else row_start) (row_end - 1)
        (col_start + 1) (if col_start + 1 ≤ col_end then col_end - 1 else col_end) with
    | some u, some l, some d, some r, some rest => some (u ++ l ++ d ++ r ++ rest)
    | _, _, _, _, _ => none
  else some []
termination_by (row_end + 1 - row_start).toNat + (col_end + 1 - col_start).toNat
decreasing_by
  obtain ⟨h1, h2⟩ := _h
  split_ifs <;> omega

/-- Model of `counterclockwise_traversal` (utils_library.py lines 28-71):
an empty matrix returns the empty list at once; otherwise the four bounds
are initialised to the outer edges of the grid and the `while` loop runs. -/
def counterclockwise_traversal (matrix : List (List Int)) : Option (List Int) :=
  match matrix with
  | [] => some []
  | row0 :: rest =>
    ccwLoop (row0 :: rest) 0 (((row0 :: rest).length : Int) - 1) 0 ((row0.length : Int) - 1)

/-- The ring-peeling loop exactly as the specification words it
(spec section 4.2, steps 2-5 repeated while the bounds have not crossed),
over total cell access: up the first active column top to bottom, then the
bottom row left to right, then, when `colStart <= colEnd` still holds, the
last active column bottom to top, then, when `rowStart <= rowEnd` still
holds, the top row right to left. -/
def specPeel (m : List (List Int)) (rowStart rowEnd colStart colEnd : Int) : List Int :=
  if _h : rowStart ≤ rowEnd ∧ colStart ≤ colEnd then
    let up := (rangeAsc rowStart (rowEnd + 1)).map (fun row => cellD m row colStart)
    let left := (rangeAsc (colStart + 1) (colEnd + 1)).map (fun col => cellD m rowEnd col)
    let down :=
      if colStart + 1 ≤ colEnd then
        (rangeDesc (rowEnd - 1) (rowStart - 1)).map (fun row => cellD m row colEnd)
      else []
    let right :=
      if rowStart ≤ rowEnd - 1 then
        ((rangeDesc (if colStart + 1 ≤ colEnd then colEnd - 1 else colEnd) (colStart + 1 - 1)).map
          (fun col => cellD m rowStart col))
      else []
    up ++ left ++ down ++ right ++
      specPeel m (if rowStart ≤ rowEnd - 1 then rowStart + 1 else rowStart) (rowEnd - 1)
        (colStart + 1) (if colStart + 1 ≤ colEnd then colEnd - 1 else colEnd)
  else []
termination_by (rowEnd + 1 - rowStart).toNat + (colEnd + 1 - colStart).toNat
decreasing_by
  obtain ⟨h1, h2⟩ := _h
  split_ifs <;> omega

/-- The full ring-peeling traversal described by the specification:
bounds initialised to the outer edges of the grid. -/
def ringPeelSpec (matrix : List (List Int)) : List Int :=
  match matrix with
  | [] => []
  | row0 :: rest =>
    specPeel (row0 :: rest) 0 (((row0 :: rest).length : Int) - 1) 0 ((row0.length : Int) - 1)

/-- The cells of the index rectangle `rs..re` times `cs..ce` read in
row-major order with total access; for the full rectangle of a
rectangular grid this is the concatenation of the rows. -/
def rectVals (m : List (List Int)) (rs re cs ce : Int) : List Int :=
  ((rangeAsc rs (re + 1)).map
    (fun r => (rangeAsc cs (ce + 1)).map (fun c => cellD m r c))).flatten

/-! ### The fetch-and-normalize gateway -/

/-- The Python exception kinds that can reach the `except` chain of
`get_matrix`: the four aiohttp classes named by the handlers,
`asyncio.TimeoutError`, and the library-level `ValueError` and
`IndexError` raised inside the `try` body, plus a catch-all constructor
for any other exception. Each carries the text of `str` applied to the
exception object. -/
inductive PyExc : Type where
  | clientConnectionError (msg : List Char)
  | clientResponseError (msg : List Char)
  | serverTimeoutError (msg : List Char)
  | serverDisconnectedError (msg : List Char)
  | asyncioTimeoutError
  | valueError (msg : List Char)
  | indexError (msg : List Char)
  | otherException (msg : List Char)
deriving DecidableEq

/-- Python `str(e)` on the exception object; a bare `asyncio.TimeoutError`
renders as the empty string. -/
def excStr : PyExc → List Char
  | .clientConnectionError msg => msg
  | .clientResponseError msg => msg
  | .serverTimeoutError msg => msg
  | .serverDisconnectedError msg => msg
  | .asyncioTimeoutError => []
  | .valueError msg => msg
  | .indexError msg => msg
  | .otherException msg => msg

/-- In aiohttp, `ServerTimeoutError` and `ServerDisconnectedError` are
subclasses of `ClientConnectionError`; the first handler of the chain
therefore also matches them. -/
def isClientConnectionError : PyExc → Bool
  | .clientConnectionError _ => true
  | .serverTimeoutError _ => true
  | .serverDisconnectedError _ => true
  | _ => false

def isClientResponseError : PyExc → Bool
  | .clientResponseError _ => true
  | _ => false

def isServerTimeoutError : PyExc → Bool
  | .serverTimeoutError _ => true
  | _ => false

def isServerDisconnectedError : PyExc → Bool
  | .serverDisconnectedError _ => true
  | _ => false

/-- aiohttp `ServerTimeoutError` is also a subclass of
`asyncio.TimeoutError`. -/
def isAsyncioTimeout : PyExc → Bool
  | .asyncioTimeoutError => true
  | .serverTimeoutError _ => true
  | _ => false

/-- The single network interaction of one `get_matrix` call: either
`session.get` yields a response with a status and a body text, or some
exception is raised during the exchange. -/
inductive FetchOutcome : Type where
  | response (status : Nat) (body : List Char)
  | raised (e : PyExc)

/-- The `try` body of `get_matrix` (utils_library.py lines 86-97):
check the status (a status of at least 500, or any status other than 200,
raises a `ValueError` describing it), then parse the body text inline and
traverse the parsed matrix. An `int` conversion failure raises
`ValueError`; an out-of-range read during the traversal raises
`IndexError`. -/
def tryBody (url : List Char) (outcome : FetchOutcome) : Except PyExc (List Int) :=
  match outcome with
  | .raised e => .error e
  | .response status body =>
    if 500 ≤ status then
      .error (.valueError (chars "Server error occurred while fetching matrix from " ++ url ++
        chars ". Status code: " ++ natChars status))
    else if status ≠ 200 then
      .error (.valueError (chars "Failed to fetch matrix from " ++ url ++
        chars ". Status code: " ++ natChars status))
    else
      match get_matrix_parse body with
      | .error e => .error (.valueError e)
      | .ok matrix =>
        match counterclockwise_traversal matrix with
        | none => .error (.indexError (chars "list index out of range"))
        | some result => .ok result

/-- The `except` chain of `get_matrix` (utils_library.py lines 98-114):
the first handler whose class matches the exception builds the message
that is both logged and raised; a `ValueError` or any other non-transport
exception falls through to the final generic handler. -/
def exceptMsg (url : List Char) (e : PyExc) : List Char :=
  if isClientConnectionError e then
    chars "Failed to connect to the server at " ++ url ++ chars ". Error: " ++ excStr e
  else if isClientResponseError e then
    chars "Received unexpected response from the server at " ++ url ++
      chars ". Error: " ++ excStr e
  else if isServerTimeoutError e then
    chars "Server at " ++ url ++ chars " timed out. Error: " ++ excStr e
  else if isServerDisconnectedError e then
    chars "Connection to server at " ++ url ++
      chars " was unexpectedly disconnected. Error: " ++ excStr e
  else if isAsyncioTimeout e then
    chars "Connection timeout while fetching matrix from " ++ url
  else
    chars "An error occurred while fetching matrix from " ++ url ++ chars ". Error: " ++ excStr e

/-- Observable outcome of one `get_matrix` call: how many outbound
requests were issued, the list of messages logged at error severity, and
the returned value or raised exception. -/
structure GatewayCall : Type where
  requests : Nat
  logs : List (List Char)
  result : Except PyExc (List Int)

/-- Model of `get_matrix` (utils_library.py lines 74-114): one
`session.get` per invocation (whose outcome is the `outcome` argument),
the `try` body above, and the `except` chain that logs the message with
`logger.error` and re-raises it as a `ValueError`. -/
def get_matrix (url : List Char) (outcome : FetchOutcome) : GatewayCall :=
  match tryBody url outcome with
  | .ok result => { requests := 1, logs := [], result := .ok result }
  | .error e =>
    let msg := exceptMsg url e
    { requests := 1, logs := [msg], result := .error (.valueError msg) }

/-- `sub` occurs contiguously inside `l`. -/
def containsSub (sub l : List Char) : Prop := ∃ s t, l = s ++ sub ++ t

/-! ### Range and access lemmas -/

theorem rangeAsc_nil {a b : Int} (h : b ≤ a) : rangeAsc a b = [] := by
  unfold rangeAsc
  have h0 : (b - a).toNat = 0 := by omega
  rw [h0]
  rfl

theorem rangeDesc_nil {a b : Int} (h : a ≤ b) : rangeDesc a b = [] := by
  unfold rangeDesc
  have h0 : (a - b).toNat = 0 := by omega
  rw [h0]
  rfl

theorem rangeAsc_cons {a b : Int} (h : a < b) : rangeAsc a b = [a] ++ rangeAsc (a + 1) b := by
  unfold rangeAsc
  have h1 : (b - a).toNat = (b - (a + 1)).toNat + 1 := by omega
  rw [h1, List.range_succ_eq_map]
  simp only [List.map_cons, List.map_map, Nat.cast_zero, add_zero, List.singleton_append,
    List.cons.injEq, true_and]
  apply List.map_congr_left
  intro i _
  simp only [Function.comp_apply]
  push_cast
  ring

theorem rangeAsc_snoc {a b : Int} (h : a < b) :
    rangeAsc a b = rangeAsc a (b - 1) ++ [b - 1] := by
  unfold rangeAsc
  have h1 : (b - a).toNat = (b - 1 - a).toNat + 1 := by omega
  rw [h1, List.range_succ, List.map_append]
  simp only [List.map_cons, List.map_nil, List.append_cancel_left_eq, List.cons.injEq, and_true]
  omega

theorem rangeDesc_cons {a b : Int} (h : b < a) :
    rangeDesc a b = [a] ++ rangeDesc (a - 1) b := by
  unfold rangeDesc
  have h1 : (a - b).toNat = (a - 1 - b).toNat + 1 := by omega
  rw [h1, List.range_succ_eq_map]
  simp only [List.map_cons, List.map_map, Nat.cast_zero, sub_zero, List.singleton_append,
    List.cons.injEq, true_and]
  apply List.map_congr_left
  intro i _
  simp only [Function.comp_apply]
  push_cast
  ring

theorem rangeAsc_singleton (a : Int) : rangeAsc a (a + 1) = [a] := by
  rw [rangeAsc_cons (by omega), rangeAsc_nil (by omega)]
  rfl

theorem rangeAsc_length (a b : Int) : (rangeAsc a b).length = (b - a).toNat := by
  simp [rangeAsc]

theorem mem_rangeAsc {a b x : Int} : x ∈ rangeAsc a b ↔ a ≤ x ∧ x < b := by
  simp only [rangeAsc, List.mem_map, List.mem_range]
  constructor
  · rintro ⟨i, hi, rfl⟩
    omega
  · rintro ⟨h1, h2⟩
    exact ⟨(x - a).toNat, by omega, by omega⟩

theorem mem_rangeDesc {a b x : Int} : x ∈ rangeDesc a b ↔ b < x ∧ x ≤ a := by
  simp only [rangeDesc, List.mem_map, List.mem_range]
  constructor
  · rintro ⟨i, hi, rfl⟩
    omega
  · rintro ⟨h1, h2⟩
    exact ⟨(a - x).toNat, by omega, by omega⟩

theorem rangeDesc_perm_aux (n : Nat) :
    ∀ a b : Int, (a - b).toNat ≤ n → List.Perm (rangeDesc a b) (rangeAsc (b + 1) (a + 1)) := by
  induction n with
  | zero =>
    intro a b h
    rw [rangeDesc_nil (by omega), rangeAsc_nil (by omega)]
  | succ n ih =>
    intro a b h
    by_cases hab : a ≤ b
    · rw [rangeDesc_nil hab, rangeAsc_nil (by omega)]
    · push_neg at hab
      rw [rangeDesc_cons hab, rangeAsc_snoc (show b + 1 < a + 1 by omega)]
      have he : a + 1 - 1 = a := by ring
      rw [he]
      have ih' : List.Perm (rangeDesc (a - 1) b) (rangeAsc (b + 1) a) := by
        have h2 := ih (a - 1) b (by omega)
        rwa [show a - 1 + 1 = a from by ring] at h2
      exact (List.Perm.append_left [a] ih').trans List.perm_append_comm

theorem rangeDesc_perm (a b : Int) : List.Perm (rangeDesc a b) (rangeAsc (b + 1) (a + 1)) :=
  rangeDesc_perm_aux (a - b).toNat a b le_rfl

theorem omap_eq_map {α β : Type} (f : α → Option β) (g : α → β) :
    ∀ l : List α, (∀ x ∈ l, f x = some (g x)) → omap f l = some (l.map g) := by
  intro l
  induction l with
  | nil => intro _; rfl
  | cons a t ih =>
    intro h
    have ha := h a (by simp)
    have ht := ih (fun x hx => h x (by simp [hx]))
    simp [omap, ha, ht]

theorem get?_getD {α : Type} :
    ∀ (l : List α) (n : Nat) (d : α), n < l.length → l.get? n = some (l.getD n d)
  | [], n, _, h => absurd h (by simp)
  | _ :: _, 0, _, _ => rfl
  | _ :: t, n + 1, d, h => get?_getD t n d (by simpa using h)

theorem mem_of_get? {α : Type} :
    ∀ (l : List α) (n : Nat) (a : α), l.get? n = some a → a ∈ l
  | [], n, _, h => by simp [List.get?] at h
  | b :: t, 0, a, h => by
    have hba : b = a := Option.some.inj h
    rw [← hba]
    exact List.mem_cons_self b t
  | b :: t, n + 1, a, h => by
    exact List.mem_cons_of_mem b (mem_of_get? t n a h)

theorem getCell_eq_cellD (m : List (List Int)) (C : Nat)
    (hrect : ∀ row ∈ m, row.length = C) (r c : Int)
    (hr0 : 0 ≤ r) (hr : r < (m.length : Int)) (hc0 : 0 ≤ c) (hc : c < (C : Int)) :
    getCell m r c = some (cellD m r c) := by
  have hrn : r.toNat < m.length := by omega
  have h1 : m.get? r.toNat = some (m.getD r.toNat []) := get?_getD m r.toNat [] hrn
  have hmem : m.getD r.toNat [] ∈ m := mem_of_get? _ _ _ h1
  have hlen : (m.getD r.toNat []).length = C := hrect _ hmem
  have hcn : c.toNat < (m.getD r.toNat []).length := by omega
  have h2 : (m.getD r.toNat []).get? c.toNat = some ((m.getD r.toNat []).getD c.toNat 0) :=
    get?_getD _ _ _ hcn
  unfold getCell cellD
  rw [if_pos (⟨hr0, hc0⟩ : 0 ≤ r ∧ 0 ≤ c), h1]
  exact h2

/-- On a rectangular grid, every read performed by the `while` loop is in
bounds and the loop produces exactly the ring-peeling sequence described
by the specification, provided the active bounds lie inside the grid. -/
theorem ccwLoop_eq_specPeel (m : List (List Int)) (C : Nat)
    (hrect : ∀ row ∈ m, row.length = C) :
    ∀ (n : Nat) (rs re cs ce : Int),
      (re + 1 - rs).toNat + (ce + 1 - cs).toNat ≤ n →
      0 ≤ rs → re < (m.length : Int) → 0 ≤ cs → ce < (C : Int) →
      ccwLoop m rs re cs ce = some (specPeel m rs re cs ce) := by
  intro n
  induction n with
  | zero =>
    intro rs re cs ce hn h0 h1 h2 h3
    have hg : ¬(rs ≤ re ∧ cs ≤ ce) := by omega
    rw [ccwLoop.eq_def, specPeel.eq_def]
    simp only [dif_neg hg]
  | succ n ih =>
    intro rs re cs ce hn h0 h1 h2 h3
    by_cases hg : rs ≤ re ∧ cs ≤ ce
    · obtain ⟨hgr, hgc⟩ := hg
      rw [ccwLoop.eq_def, specPeel.eq_def]
      simp only [dif_pos (show rs ≤ re ∧ cs ≤ ce from ⟨hgr, hgc⟩)]
      have hup : omap (fun row => getCell m row cs) (rangeAsc rs (re + 1)) =
          some ((rangeAsc rs (re + 1)).map (fun row => cellD m row cs)) :=
        omap_eq_map _ _ _ (fun x hx => by
          have hb := mem_rangeAsc.mp hx
          exact getCell_eq_cellD m C hrect x cs (by omega) (by omega) (by omega) (by omega))
      have hleft : omap (fun col => getCell m re col) (rangeAsc (cs + 1) (ce + 1)) =
          some ((rangeAsc (cs + 1) (ce + 1)).map (fun col => cellD m re col)) :=
        omap_eq_map _ _ _ (fun x hx => by
          have hb := mem_rangeAsc.mp hx
          exact getCell_eq_cellD m C hrect re x (by omega) (by omega) (by omega) (by omega))
      rw [hup, hleft]
      by_cases hc1 : cs + 1 ≤ ce
      · have hdown : omap (fun row => getCell m row ce) (rangeDesc (re - 1) (rs - 1)) =
            some ((rangeDesc (re - 1) (rs - 1)).map (fun row => cellD m row ce)) :=
          omap_eq_map _ _ _ (fun x hx => by
            have hb := mem_rangeDesc.mp hx
            exact getCell_eq_cellD m C hrect x ce (by omega) (by omega) (by omega) (by omega))
        simp only [if_pos hc1]
        rw [hdown]
        by_cases hc2 : rs ≤ re - 1
        · have hright : omap (fun col => getCell m rs col) (rangeDesc (ce - 1) (cs + 1 - 1)) =
              some ((rangeDesc (ce - 1) (cs + 1 - 1)).map (fun col => cellD m rs col)) :=
            omap_eq_map _ _ _ (fun x hx => by
              have hb := mem_rangeDesc.mp hx
              exact getCell_eq_cellD m C hrect rs x (by omega) (by omega) (by omega)
                (by omega))
          simp only [if_pos hc2]
          rw [hright, ih (rs + 1) (re - 1) (cs + 1) (ce - 1) (by omega) (by omega) (by omega)
            (by omega) (by omega)]
        · simp only [if_neg hc2]
          rw [ih rs (re - 1) (cs + 1) (ce - 1) (by omega) (by omega) (by omega) (by omega)
            (by omega)]
      · simp only [if_neg hc1]
        by_cases hc2 : rs ≤ re - 1
        · have hright : omap (fun col => getCell m rs col) (rangeDesc ce (cs + 1 - 1)) =
              some ((rangeDesc ce (cs + 1 - 1)).map (fun col => cellD m rs col)) :=
            omap_eq_map _ _ _ (fun x hx => by
              have hb := mem_rangeDesc.mp hx
              exact getCell_eq_cellD m C hrect rs x (by omega) (by omega) (by omega)
                (by omega))
          simp only [if_pos hc2]
          rw [hright, ih (rs + 1) (re - 1) (cs + 1) ce (by omega) (by omega) (by omega)
            (by omega) (by omega)]
        · simp only [if_neg hc2]
          rw [ih rs (re - 1) (cs + 1) ce (by omega) (by omega) (by omega) (by omega)
            (by omega)]
    · rw [ccwLoop.eq_def, specPeel.eq_def]
      simp only [dif_neg hg]

/-! ### Multiset bookkeeping for the permutation argument -/

theorem mcoe_append {α : Type} (s t : List α) : ((s ++ t : List α) : Multiset α) = ↑s + ↑t :=
  (Multiset.coe_add s t).symm

theorem mcoe_nil {α : Type} : (([] : List α) : Multiset α) = 0 := rfl

theorem mcoe_cons {α : Type} (a : α) (l : List α) :
    ((a :: l : List α) : Multiset α) = {a} + ↑l := by
  rw [Multiset.singleton_add]
  rfl

theorem flatten_map_nil {α β : Type} (l : List α) :
    (l.map (fun _ => ([] : List β))).flatten = [] := by
  induction l with
  | nil => rfl
  | cons a t ih => simp [ih]

theorem flatten_map_singleton {α β : Type} (l : List α) (f : α → β) :
    (l.map (fun x => [f x])).flatten = l.map f := by
  induction l with
  | nil => rfl
  | cons a t ih => simpa using ih

/-- The values of row `r`, columns `a .. b` inclusive, left to right. -/
def rowVals (m : List (List Int)) (r a b : Int) : List Int :=
  (rangeAsc a (b + 1)).map (fun c => cellD m r c)

/-- The values of column `c`, rows `a .. b` inclusive, top to bottom. -/
def colVals (m : List (List Int)) (c a b : Int) : List Int :=
  (rangeAsc a (b + 1)).map (fun r => cellD m r c)

theorem rowVals_cons (m : List (List Int)) (r : Int) {a b : Int} (h : a ≤ b) :
    rowVals m r a b = [cellD m r a] ++ rowVals m r (a + 1) b := by
  unfold rowVals
  rw [rangeAsc_cons (show a < b + 1 by omega), List.map_append]
  rfl

theorem rowVals_snoc (m : List (List Int)) (r : Int) {a b : Int} (h : a ≤ b) :
    rowVals m r a b = rowVals m r a (b - 1) ++ [cellD m r b] := by
  unfold rowVals
  rw [rangeAsc_snoc (show a < b + 1 by omega), show b + 1 - 1 = b from by ring,
    show b - 1 + 1 = b from by ring, List.map_append]
  rfl

theorem colVals_cons (m : List (List Int)) (c : Int) {a b : Int} (h : a ≤ b) :
    colVals m c a b = [cellD m a c] ++ colVals m c (a + 1) b := by
  unfold colVals
  rw [rangeAsc_cons (show a < b + 1 by omega), List.map_append]
  rfl

theorem colVals_snoc (m : List (List Int)) (c : Int) {a b : Int} (h : a ≤ b) :
    colVals m c a b = colVals m c a (b - 1) ++ [cellD m b c] := by
  unfold colVals
  rw [rangeAsc_snoc (show a < b + 1 by omega), show b + 1 - 1 = b from by ring,
    show b - 1 + 1 = b from by ring, List.map_append]
  rfl

theorem rowVals_singleton (m : List (List Int)) (r a : Int) :
    rowVals m r a a = [cellD m r a] := by
  unfold rowVals
  rw [rangeAsc_singleton]
  rfl

theorem colVals_singleton (m : List (List Int)) (c a : Int) :
    colVals m c a a = [cellD m a c] := by
  unfold colVals
  rw [rangeAsc_singleton]
  rfl

theorem rowVals_nil (m : List (List Int)) (r : Int) {a b : Int} (h : b < a) :
    rowVals m r a b = [] := by
  unfold rowVals
  rw [rangeAsc_nil (by omega)]
  rfl

theorem rectVals_nil_rows (m : List (List Int)) {rs re : Int} (cs ce : Int) (h : re < rs) :
    rectVals m rs re cs ce = [] := by
  unfold rectVals
  rw [rangeAsc_nil (show re + 1 ≤ rs by omega)]
  rfl

theorem rectVals_nil_cols (m : List (List Int)) (rs re : Int) {cs ce : Int} (h : ce < cs) :
    rectVals m rs re cs ce = [] := by
  unfold rectVals
  have h0 : rangeAsc cs (ce + 1) = [] := rangeAsc_nil (by omega)
  simp only [h0, List.map_nil]
  exact flatten_map_nil _

theorem rectVals_cons (m : List (List Int)) {rs re : Int} (cs ce : Int) (h : rs ≤ re) :
    rectVals m rs re cs ce = rowVals m rs cs ce ++ rectVals m (rs + 1) re cs ce := by
  unfold rectVals rowVals
  rw [rangeAsc_cons (show rs < re + 1 by omega), List.map_append, List.flatten_append]
  simp

theorem rectVals_snoc (m : List (List Int)) {rs re : Int} (cs ce : Int) (h : rs ≤ re) :
    rectVals m rs re cs ce = rectVals m rs (re - 1) cs ce ++ rowVals m re cs ce := by
  unfold rectVals rowVals
  rw [rangeAsc_snoc (show rs < re + 1 by omega), show re + 1 - 1 = re from by ring,
    show re - 1 + 1 = re from by ring, List.map_append, List.flatten_append]
  simp

theorem rectVals_single_col (m : List (List Int)) (rs re c : Int) :
    rectVals m rs re c c = colVals m c rs re := by
  unfold rectVals colVals
  simp only [rangeAsc_singleton, List.map_cons, List.map_nil]
  exact flatten_map_singleton _ _

/-- Splitting every row of a block into first cell, middle and last cell:
the block is a permutation of its left column, its middle block and its
right column. -/
theorem flatten_rows_three (m : List (List Int)) {cs ce : Int} (h : cs + 1 ≤ ce) :
    ∀ L : List Int,
      List.Perm ((L.map (fun r => rowVals m r cs ce)).flatten)
        (L.map (fun r => cellD m r cs) ++
          (L.map (fun r => rowVals m r (cs + 1) (ce - 1))).flatten ++
          L.map (fun r => cellD m r ce)) := by
  intro L
  induction L with
  | nil => simp
  | cons r t ih =>
    simp only [List.map_cons, List.flatten_cons]
    have hsplit : rowVals m r cs ce =
        [cellD m r cs] ++ rowVals m r (cs + 1) (ce - 1) ++ [cellD m r ce] := by
      rw [rowVals_cons m r (show cs ≤ ce by omega), rowVals_snoc m r (show cs + 1 ≤ ce from h)]
      simp [List.append_assoc]
    rw [hsplit, ← Multiset.coe_eq_coe]
    have ih' : ((((t.map (fun r => rowVals m r cs ce)).flatten : List Int)) : Multiset Int) =
        ↑(t.map (fun r => cellD m r cs) ++
          (t.map (fun r => rowVals m r (cs + 1) (ce - 1))).flatten ++
          t.map (fun r => cellD m r ce)) := Multiset.coe_eq_coe.mpr ih
    simp only [mcoe_append, mcoe_cons, mcoe_nil, add_zero]
    rw [ih']
    simp only [mcoe_append]
    abel

/-- The ring-peeling sequence is a permutation of the row-major reading of
the active rectangle. -/
theorem specPeel_perm (m : List (List Int)) :
    ∀ (n : Nat) (rs re cs ce : Int),
      (re + 1 - rs).toNat + (ce + 1 - cs).toNat ≤ n →
      List.Perm (specPeel m rs re cs ce) (rectVals m rs re cs ce) := by
  intro n
  induction n with
  | zero =>
    intro rs re cs ce hn
    rw [specPeel.eq_def]
    simp only [dif_neg (show ¬(rs ≤ re ∧ cs ≤ ce) from by omega)]
    rw [rectVals_nil_rows m cs ce (by omega)]
  | succ n ih =>
    intro rs re cs ce hn
    by_cases hg : rs ≤ re ∧ cs ≤ ce
    · obtain ⟨hgr, hgc⟩ := hg
      rw [specPeel.eq_def]
      simp only [dif_pos (show rs ≤ re ∧ cs ≤ ce from ⟨hgr, hgc⟩)]
      by_cases hc1 : cs + 1 ≤ ce
      · by_cases hc2 : rs ≤ re - 1
        · -- full ring: both the down pass and the right pass run
          simp only [if_pos hc1, if_pos hc2]
          show List.Perm
            (colVals m cs rs re ++ rowVals m re (cs + 1) ce ++
              (rangeDesc (re - 1) (rs - 1)).map (fun row => cellD m row ce) ++
              (rangeDesc (ce - 1) (cs + 1 - 1)).map (fun col => cellD m rs col) ++
              specPeel m (rs + 1) (re - 1) (cs + 1) (ce - 1))
            (rectVals m rs re cs ce)
          rw [rectVals_cons m cs ce hgr, rectVals_snoc m cs ce (show rs + 1 ≤ re by omega),
            rowVals_cons m rs hgc, rowVals_snoc m rs hc1, rowVals_cons m re hgc,
            colVals_cons m cs hgr, colVals_snoc m cs (show rs + 1 ≤ re by omega)]
          rw [← Multiset.coe_eq_coe]
          have hdown :
              (((rangeDesc (re - 1) (rs - 1)).map (fun row => cellD m row ce) : List Int) :
                Multiset Int) = ↑(colVals m ce rs (re - 1)) := by
            apply Multiset.coe_eq_coe.mpr
            have hp := (rangeDesc_perm (re - 1) (rs - 1)).map (fun row => cellD m row ce)
            rwa [show rs - 1 + 1 = rs from by ring] at hp
          have hright :
              (((rangeDesc (ce - 1) (cs + 1 - 1)).map (fun col => cellD m rs col) : List Int) :
                Multiset Int) = ↑(rowVals m rs (cs + 1) (ce - 1)) := by
            apply Multiset.coe_eq_coe.mpr
            have hp := (rangeDesc_perm (ce - 1) (cs + 1 - 1)).map (fun col => cellD m rs col)
            rwa [show cs + 1 - 1 + 1 = cs + 1 from by ring] at hp
          have hrest : ((specPeel m (rs + 1) (re - 1) (cs + 1) (ce - 1) : List Int) :
                Multiset Int) = ↑(rectVals m (rs + 1) (re - 1) (cs + 1) (ce - 1)) :=
            Multiset.coe_eq_coe.mpr (ih (rs + 1) (re - 1) (cs + 1) (ce - 1) (by omega))
          have hmid : ((rectVals m (rs + 1) (re - 1) cs ce : List Int) : Multiset Int) =
              ↑(colVals m cs (rs + 1) (re - 1)) +
                ↑(rectVals m (rs + 1) (re - 1) (cs + 1) (ce - 1)) +
                ↑(colVals m ce (rs + 1) (re - 1)) := by
            have hp := Multiset.coe_eq_coe.mpr
              (flatten_rows_three m hc1 (rangeAsc (rs + 1) (re - 1 + 1)))
            rw [mcoe_append, mcoe_append] at hp
            exact hp
          simp only [mcoe_append, mcoe_cons, mcoe_nil, add_zero]
          rw [hdown, hright, hrest, hmid, colVals_cons m ce hc2]
          simp only [mcoe_append, mcoe_cons, mcoe_nil, add_zero]
          abel
        · -- a single active row remains: the right pass is skipped
          have hre : re = rs := by omega
          subst hre
          simp only [if_pos hc1, if_neg hc2]
          show List.Perm
            (colVals m cs re re ++ rowVals m re (cs + 1) ce ++
              (rangeDesc (re - 1) (re - 1)).map (fun row => cellD m row ce) ++ [] ++
              specPeel m re (re - 1) (cs + 1) (ce - 1))
            (rectVals m re re cs ce)
          have hrest0 : specPeel m re (re - 1) (cs + 1) (ce - 1) = [] := by
            rw [specPeel.eq_def]
            simp only [dif_neg (show ¬(re ≤ re - 1 ∧ cs + 1 ≤ ce - 1) from by omega)]
          rw [hrest0, rangeDesc_nil (le_refl (re - 1)), rectVals_cons m cs ce (le_refl re),
            rectVals_nil_rows m cs ce (by omega), rowVals_cons m re hgc, colVals_singleton]
          simp only [List.map_nil, List.append_nil, List.nil_append, List.append_assoc]
          exact List.Perm.refl _
      · by_cases hc2 : rs ≤ re - 1
        · -- a single active column remains: the down pass is skipped
          have hce : ce = cs := by omega
          subst hce
          simp only [if_neg hc1, if_pos hc2]
          show List.Perm
            (colVals m ce rs re ++ rowVals m re (ce + 1) ce ++ [] ++
              (rangeDesc ce (ce + 1 - 1)).map (fun col => cellD m rs col) ++
              specPeel m (rs + 1) (re - 1) (ce + 1) ce)
            (rectVals m rs re ce ce)
          have hrest0 : specPeel m (rs + 1) (re - 1) (ce + 1) ce = [] := by
            have hp := ih (rs + 1) (re - 1) (ce + 1) ce (by omega)
            rw [rectVals_nil_cols m (rs + 1) (re - 1) (by omega)] at hp
            exact hp.eq_nil
          rw [hrest0, rowVals_nil m re (by omega),
            show ce + 1 - 1 = ce from by ring, rangeDesc_nil (le_refl ce),
            rectVals_single_col]
          simp only [List.map_nil, List.append_nil, List.nil_append, List.append_assoc]
          exact List.Perm.refl _
        · -- a single cell remains
          have hre : re = rs := by omega
          subst hre
          have hce : ce = cs := by omega
          subst hce
          simp only [if_neg hc1, if_neg hc2]
          show List.Perm
            (colVals m ce re re ++ rowVals m re (ce + 1) ce ++ [] ++ [] ++
              specPeel m re (re - 1) (ce + 1) ce)
            (rectVals m re re ce ce)
          have hrest0 : specPeel m re (re - 1) (ce + 1) ce = [] := by
            rw [specPeel.eq_def]
            simp only [dif_neg (show ¬(re ≤ re - 1 ∧ ce + 1 ≤ ce) from by omega)]
          rw [hrest0, rowVals_nil m re (by omega), rectVals_single_col]
          simp only [List.append_nil, List.nil_append, List.append_assoc]
          exact List.Perm.refl _
    · rw [specPeel.eq_def]
      simp only [dif_neg hg]
      rcases (show re < rs ∨ ce < cs from by omega) with h | h
      · rw [rectVals_nil_rows m cs ce h]
      · rw [rectVals_nil_cols m rs re h]

theorem getD_eq_getElem {α : Type} :
    ∀ (l : List α) (n : Nat) (d : α) (h : n < l.length), l.getD n d = l[n]
  | [], _, _, h => absurd h (by simp)
  | _ :: _, 0, _, _ => rfl
  | a :: t, n + 1, d, h => by
    rw [List.getD_cons_succ, List.getElem_cons_succ]
    exact getD_eq_getElem t n d (by simpa using h)

theorem map_getD_range {α : Type} (l : List α) (d : α) :
    (List.range l.length).map (fun i => l.getD i d) = l := by
  apply List.ext_getElem
  · simp
  · intro n h1 h2
    simp only [List.getElem_map, List.getElem_range]
    exact getD_eq_getElem l n d h2

theorem rangeAsc_zero (n : Nat) :
    rangeAsc 0 (n : Int) = (List.range n).map (fun (i : Nat) => (i : Int)) := by
  unfold rangeAsc
  rw [show ((n : Int) - 0).toNat = n from by omega]
  apply List.map_congr_left
  intro i _
  omega

theorem row_read_back (row : List Int) (C : Nat) (hlen : row.length = C) :
    (rangeAsc 0 (C : Int)).map (fun c => row.getD c.toNat 0) = row := by
  rw [rangeAsc_zero, List.map_map]
  have hfun : ((fun c : Int => row.getD c.toNat 0) ∘ fun (i : Nat) => (i : Int)) =
      fun i : Nat => row.getD i 0 := by
    funext i
    simp [Function.comp]
  rw [hfun, ← hlen, map_getD_range]

theorem rectVals_full (m : List (List Int)) (C : Nat)
    (hrect : ∀ row ∈ m, row.length = C) :
    rectVals m 0 ((m.length : Int) - 1) 0 ((C : Int) - 1) = m.flatten := by
  unfold rectVals
  rw [show (m.length : Int) - 1 + 1 = (m.length : Int) from by ring,
    show (C : Int) - 1 + 1 = (C : Int) from by ring,
    rangeAsc_zero m.length, List.map_map]
  have hrows : ∀ i ∈ List.range m.length,
      ((fun r => (rangeAsc 0 (C : Int)).map (fun c => cellD m r c)) ∘ fun (i : Nat) => (i : Int)) i
        = m.getD i [] := by
    intro i hi
    have hilt : i < m.length := List.mem_range.mp hi
    have hmem : m.getD i [] ∈ m := by
      rw [getD_eq_getElem m i [] hilt]
      exact List.getElem_mem hilt
    have hcomp : ∀ c : Int, cellD m (i : Int) c = (m.getD i []).getD c.toNat 0 := by
      intro c
      unfold cellD
      rw [show ((i : Int)).toNat = i from by omega]
    simp only [Function.comp_apply, hcomp]
    exact row_read_back (m.getD i []) C (hrect _ hmem)
  rw [List.map_congr_left hrows, map_getD_range]

theorem flatten_length_const (m : List (List Int)) (C : Nat)
    (hrect : ∀ row ∈ m, row.length = C) : m.flatten.length = m.length * C := by
  induction m with
  | nil => simp
  | cons row t ih =>
    simp only [List.flatten_cons, List.length_append, List.length_cons]
    rw [hrect row (by simp), ih (fun r hr => hrect r (by simp [hr]))]
    ring

/-! ### Claims about the traversal -/

/-- C4: for every rectangular grid, `counterclockwise_traversal`
terminates (it is a total Lean function) and performs no out-of-range
read: the result is `some` list, never the `none` that an out-of-bounds
index would produce. -/
theorem traversal_total_of_rect (m : List (List Int)) (C : Nat)
    (hrect : ∀ row ∈ m, row.length = C) :
    ∃ l, counterclockwise_traversal m = some l := by
  cases m with
  | nil => exact ⟨[], rfl⟩
  | cons row0 rest =>
    have hC0 : row0.length = C := hrect row0 (List.mem_cons_self row0 rest)
    exact ⟨_, ccwLoop_eq_specPeel (row0 :: rest) C hrect
      (((((row0 :: rest).length : Int) - 1) + 1 - 0).toNat +
        ((((row0.length : Int) - 1) + 1 - 0).toNat))
      0 (((row0 :: rest).length : Int) - 1) 0 ((row0.length : Int) - 1)
      le_rfl (by omega) (by simp) (by omega) (by omega)⟩

/-- Witness for C4 at a concrete rectangular grid. -/
theorem traversal_total_of_rect_witness :
    ∃ l, counterclockwise_traversal [[1, 2], [3, 4], [5, 6]] = some l :=
  traversal_total_of_rect [[1, 2], [3, 4], [5, 6]] 2 (by decide)

/-- C8: the empty grid (zero rows) yields the empty result immediately,
with no error. -/
theorem traversal_empty_grid : counterclockwise_traversal [] = some [] := rfl

/-- C1: on a non-empty rectangular grid with non-empty rows the traversal
succeeds, its result has length `rows * cols`, and it is a permutation of
the cells of the grid: every value occurs in the output exactly as often
as in the grid. -/
theorem traversal_perm_of_rect (m : List (List Int)) (C : Nat)
    (hne : m ≠ []) (_hC : 0 < C) (hrect : ∀ row ∈ m, row.length = C) :
    ∃ l, counterclockwise_traversal m = some l ∧
      l.length = m.length * C ∧ List.Perm l m.flatten ∧
      ∀ v : Int, l.count v = m.flatten.count v := by
  cases m with
  | nil => exact absurd rfl hne
  | cons row0 rest =>
    have hC0 : row0.length = C := hrect row0 (List.mem_cons_self row0 rest)
    have hcast : ((row0.length : Int)) = (C : Int) := by exact_mod_cast hC0
    have heq : counterclockwise_traversal (row0 :: rest) =
        some (specPeel (row0 :: rest) 0 (((row0 :: rest).length : Int) - 1) 0
          ((row0.length : Int) - 1)) :=
      ccwLoop_eq_specPeel (row0 :: rest) C hrect
        (((((row0 :: rest).length : Int) - 1) + 1 - 0).toNat +
          ((((row0.length : Int) - 1) + 1 - 0).toNat))
        0 (((row0 :: rest).length : Int) - 1) 0 ((row0.length : Int) - 1)
        le_rfl (by omega) (by simp) (by omega) (by omega)
    have hperm : List.Perm
        (specPeel (row0 :: rest) 0 (((row0 :: rest).length : Int) - 1) 0
          ((row0.length : Int) - 1))
        (rectVals (row0 :: rest) 0 (((row0 :: rest).length : Int) - 1) 0
          ((row0.length : Int) - 1)) :=
      specPeel_perm (row0 :: rest)
        (((((row0 :: rest).length : Int) - 1) + 1 - 0).toNat +
          ((((row0.length : Int) - 1) + 1 - 0).toNat))
        0 (((row0 :: rest).length : Int) - 1) 0 ((row0.length : Int) - 1) le_rfl
    rw [hcast] at heq hperm
    rw [rectVals_full (row0 :: rest) C hrect] at hperm
    refine ⟨_, heq, ?_, hperm, fun v => hperm.count_eq v⟩
    rw [hperm.length_eq, flatten_length_const (row0 :: rest) C hrect]

/-- Witness for C1 at a concrete rectangular grid. -/
theorem traversal_perm_of_rect_witness :
    ∃ l, counterclockwise_traversal [[1, 2], [3, 4]] = some l ∧
      l.length = [[1, 2], [3, 4]].length * 2 ∧ List.Perm l [[1, 2], [3, 4]].flatten ∧
      ∀ v : Int, l.count v = [[1, 2], [3, 4]].flatten.count v :=
  traversal_perm_of_rect [[1, 2], [3, 4]] 2 (by decide) (by decide) (by decide)

theorem take_left_of_length {α : Type} {l₁ l₂ : List α} {n : Nat} (h : l₁.length = n) :
    (l₁ ++ l₂).take n = l₁ := by
  rw [← h]
  exact List.take_left l₁ l₂

/-- C3: the traversal emits cells exactly in the order of the ring-peeling
steps of the specification (`ringPeelSpec`), and in particular the output
begins with the whole first column, top to bottom. -/
theorem traversal_order_matches_ring_peel (m : List (List Int)) (C : Nat)
    (hne : m ≠ []) (hC : 0 < C) (hrect : ∀ row ∈ m, row.length = C) :
    counterclockwise_traversal m = some (ringPeelSpec m) ∧
    (ringPeelSpec m).take m.length = m.map (fun row => row.getD 0 0) := by
  cases m with
  | nil => exact absurd rfl hne
  | cons row0 rest =>
    have hC0 : row0.length = C := hrect row0 (List.mem_cons_self row0 rest)
    constructor
    · exact ccwLoop_eq_specPeel (row0 :: rest) C hrect
        (((((row0 :: rest).length : Int) - 1) + 1 - 0).toNat +
          ((((row0.length : Int) - 1) + 1 - 0).toNat))
        0 (((row0 :: rest).length : Int) - 1) 0 ((row0.length : Int) - 1)
        le_rfl (by omega) (by simp) (by omega) (by omega)
    · have hunfold : ringPeelSpec (row0 :: rest) = specPeel (row0 :: rest) 0
          (((row0 :: rest).length : Int) - 1) 0 ((row0.length : Int) - 1) := rfl
      rw [hunfold, specPeel.eq_def]
      simp only [dif_pos (show (0 : Int) ≤ ((row0 :: rest).length : Int) - 1 ∧
        (0 : Int) ≤ (row0.length : Int) - 1 from by constructor <;> [simp; omega])]
      rw [show ((row0 :: rest).length : Int) - 1 + 1 = ((row0 :: rest).length : Int)
          from by ring]
      simp only [List.append_assoc]
      have hlen : ((rangeAsc 0 ((row0 :: rest).length : Int)).map
          (fun row => cellD (row0 :: rest) row 0)).length = (row0 :: rest).length := by
        rw [List.length_map, rangeAsc_length]
        omega
      rw [take_left_of_length hlen]
      rw [rangeAsc_zero (row0 :: rest).length, List.map_map]
      have h2 := congrArg (List.map (fun row : List Int => row.getD 0 0))
        (map_getD_range (row0 :: rest) [])
      rw [List.map_map] at h2
      have hfun : ((fun row => cellD (row0 :: rest) row 0) ∘ fun (i : Nat) => (i : Int)) =
          ((fun row : List Int => row.getD 0 0) ∘ fun i => (row0 :: rest).getD i []) := by
        funext i
        simp only [Function.comp_apply]
        unfold cellD
        rw [show ((i : Int)).toNat = i from by omega]
        rfl
      rw [hfun, h2]

/-- Witness for C3 at a concrete rectangular grid. -/
theorem traversal_order_matches_ring_peel_witness :
    counterclockwise_traversal [[1, 2], [3, 4]] = some (ringPeelSpec [[1, 2], [3, 4]]) ∧
    (ringPeelSpec [[1, 2], [3, 4]]).take [[1, 2], [3, 4]].length =
      [[1, 2], [3, 4]].map (fun row => row.getD 0 0) :=
  traversal_order_matches_ring_peel [[1, 2], [3, 4]] 2 (by decide) (by decide) (by decide)

/-- C2: the reference document body parses to the reference grid, and the
traversal of that grid is the reference counterclockwise sequence. -/
theorem reference_scenario_eval :
    start_matrix_data_parse
        (chars "|10|20|30|40|\n|50|60|70|80|\n|90|100|110|120|\n|130|140|150|160|") =
      .ok [[10, 20, 30, 40], [50, 60, 70, 80], [90, 100, 110, 120], [130, 140, 150, 160]] ∧
    counterclockwise_traversal
        [[10, 20, 30, 40], [50, 60, 70, 80], [90, 100, 110, 120], [130, 140, 150, 160]] =
      some [10, 50, 90, 130, 140, 150, 160, 120, 80, 40, 30, 20, 60, 100, 110, 70] := by
  constructor
  · rfl
  · have h2 : ccwLoop
        [[10, 20, 30, 40], [50, 60, 70, 80], [90, 100, 110, 120], [130, 140, 150, 160]]
        2 1 2 1 = some [] := by
      rw [ccwLoop.eq_def]
      norm_num
    have h1 : ccwLoop
        [[10, 20, 30, 40], [50, 60, 70, 80], [90, 100, 110, 120], [130, 140, 150, 160]]
        1 2 1 2 = some [60, 100, 110, 70] := by
      rw [ccwLoop.eq_def]
      norm_num
      rw [h2]
      rfl
    have h0 : ccwLoop
        [[10, 20, 30, 40], [50, 60, 70, 80], [90, 100, 110, 120], [130, 140, 150, 160]]
        0 3 0 3 =
        some [10, 50, 90, 130, 140, 150, 160, 120, 80, 40, 30, 20, 60, 100, 110, 70] := by
      rw [ccwLoop.eq_def]
      norm_num
      rw [h1]
      rfl
    have hstart : counterclockwise_traversal
        [[10, 20, 30, 40], [50, 60, 70, 80], [90, 100, 110, 120], [130, 140, 150, 160]] =
        ccwLoop [[10, 20, 30, 40], [50, 60, 70, 80], [90, 100, 110, 120], [130, 140, 150, 160]]
          0 3 0 3 := by
      norm_num [counterclockwise_traversal]
    rw [hstart, h0]

/-! ### Strip and substring lemmas -/

theorem dropWhile_head_false {α : Type} (p : α → Bool) :
    ∀ (l : List α) (h : α) (t : List α), l.dropWhile p = h :: t → p h = false := by
  intro l
  induction l with
  | nil => intro h t hcontra; simp [List.dropWhile] at hcontra
  | cons a l ih =>
    intro h t heq
    rw [List.dropWhile_cons] at heq
    by_cases hp : p a
    · rw [if_pos hp] at heq
      exact ih h t heq
    · rw [if_neg hp] at heq
      injection heq with h1 _
      rw [← h1]
      simpa using hp

theorem dropWhile_self {α : Type} (p : α → Bool) (l : List α) :
    (l.dropWhile p).dropWhile p = l.dropWhile p := by
  cases hd : l.dropWhile p with
  | nil => rfl
  | cons h t =>
    have hh := dropWhile_head_false p l h t hd
    rw [List.dropWhile_cons, if_neg (by simp [hh])]

/-- Python `strip` is idempotent. -/
theorem pyStrip_idem (l : List Char) : pyStrip (pyStrip l) = pyStrip l := by
  unfold pyStrip
  have h1 : (((l.dropWhile isPySpace).reverse.dropWhile isPySpace).reverse).dropWhile isPySpace
      = ((l.dropWhile isPySpace).reverse.dropWhile isPySpace).reverse := by
    cases hrc : ((l.dropWhile isPySpace).reverse.dropWhile isPySpace).reverse with
    | nil => rfl
    | cons x w =>
      have hsplit : (l.dropWhile isPySpace).reverse.takeWhile isPySpace ++
          (l.dropWhile isPySpace).reverse.dropWhile isPySpace =
          (l.dropWhile isPySpace).reverse := List.takeWhile_append_dropWhile _ _
      have hA_eq : l.dropWhile isPySpace =
          ((l.dropWhile isPySpace).reverse.dropWhile isPySpace).reverse ++
            ((l.dropWhile isPySpace).reverse.takeWhile isPySpace).reverse := by
        have hrev := congrArg List.reverse hsplit
        rw [List.reverse_append, List.reverse_reverse] at hrev
        exact hrev.symm
      rw [hrc, List.cons_append] at hA_eq
      have hx : isPySpace x = false := dropWhile_head_false isPySpace l x _ hA_eq
      rw [List.dropWhile_cons, if_neg (by simp [hx])]
  rw [h1, List.reverse_reverse, dropWhile_self isPySpace (l.dropWhile isPySpace).reverse]

theorem containsSub_refl (sub : List Char) : containsSub sub sub :=
  ⟨[], [], by simp⟩

theorem containsSub_nil (l : List Char) : containsSub [] l :=
  ⟨[], l, by simp⟩

theorem containsSub_appendL (sub l r : List Char) (h : containsSub sub l) :
    containsSub sub (l ++ r) := by
  obtain ⟨s, t, rfl⟩ := h
  exact ⟨s, t ++ r, by simp [List.append_assoc]⟩

theorem containsSub_appendR (sub l r : List Char) (h : containsSub sub r) :
    containsSub sub (l ++ r) := by
  obtain ⟨s, t, rfl⟩ := h
  exact ⟨l ++ s, t, by simp [List.append_assoc]⟩

/-! ### Claims about the parser -/

/-- C9: the parsing step of `start_matrix_data` and the inline parsing
step of `get_matrix` are extensionally equal: the extra outer `strip` of
`start_matrix_data` is absorbed because `strip` is idempotent. -/
theorem parse_paths_agree (body : List Char) :
    start_matrix_data_parse body = get_matrix_parse body := by
  simp only [start_matrix_data_parse, get_matrix_parse]
  rw [pyStrip_idem]

/-- C10: the first and last fields of a retained line are dropped
unconditionally: the line of text 1 pipe 2 pipe 3, without bracketing
delimiters, parses to the single row containing 2 (losing the bookend
data rather than failing), and a delimiter-free non-blank non-numeric
line such as abc contributes no row at all and raises no error. -/
theorem bookend_field_drop_eval :
    get_matrix_parse (chars "1|2|3") = .ok [[2]] ∧
    start_matrix_data_parse (chars "1|2|3") = .ok [[2]] ∧
    get_matrix_parse (chars "abc") = .ok [] ∧
    start_matrix_data_parse (chars "abc") = .ok [] :=
  ⟨rfl, rfl, rfl, rfl⟩

/-! ### Gateway evaluation lemmas -/

theorem get_matrix_raise_eval (url : List Char) (e : PyExc) :
    get_matrix url (.raised e) =
      { requests := 1, logs := [exceptMsg url e],
        result := .error (.valueError (exceptMsg url e)) } := rfl

theorem get_matrix_ge500_eval (url body : List Char) (status : Nat) (h : 500 ≤ status) :
    get_matrix url (.response status body) =
      { requests := 1,
        logs := [chars "An error occurred while fetching matrix from " ++ url ++
          chars ". Error: " ++
          (chars "Server error occurred while fetching matrix from " ++ url ++
            chars ". Status code: " ++ natChars status)],
        result := .error (.valueError
          (chars "An error occurred while fetching matrix from " ++ url ++
            chars ". Error: " ++
            (chars "Server error occurred while fetching matrix from " ++ url ++
              chars ". Status code: " ++ natChars status))) } := by
  simp only [get_matrix, tryBody]
  rw [if_pos h]
  rfl

theorem get_matrix_badstatus_eval (url body : List Char) (status : Nat)
    (h5 : ¬500 ≤ status) (h200 : status ≠ 200) :
    get_matrix url (.response status body) =
      { requests := 1,
        logs := [chars "An error occurred while fetching matrix from " ++ url ++
          chars ". Error: " ++
          (chars "Failed to fetch matrix from " ++ url ++
            chars ". Status code: " ++ natChars status)],
        result := .error (.valueError
          (chars "An error occurred while fetching matrix from " ++ url ++
            chars ". Error: " ++
            (chars "Failed to fetch matrix from " ++ url ++
              chars ". Status code: " ++ natChars status))) } := by
  simp only [get_matrix, tryBody]
  rw [if_neg h5, if_pos h200]
  rfl

theorem get_matrix_parse_error_eval (url body pm : List Char)
    (hparse : get_matrix_parse body = .error pm) :
    get_matrix url (.response 200 body) =
      { requests := 1,
        logs := [chars "An error occurred while fetching matrix from " ++ url ++
          chars ". Error: " ++ pm],
        result := .error (.valueError
          (chars "An error occurred while fetching matrix from " ++ url ++
            chars ". Error: " ++ pm)) } := by
  simp only [get_matrix, tryBody]
  rw [if_neg (by omega), if_neg (by simp), hparse]
  rfl

theorem get_matrix_traversal_fail_eval (url body : List Char) (matrix : List (List Int))
    (hparse : get_matrix_parse body = .ok matrix)
    (ht : counterclockwise_traversal matrix = none) :
    get_matrix url (.response 200 body) =
      { requests := 1,
        logs := [chars "An error occurred while fetching matrix from " ++ url ++
          chars ". Error: " ++ chars "list index out of range"],
        result := .error (.valueError
          (chars "An error occurred while fetching matrix from " ++ url ++
            chars ". Error: " ++ chars "list index out of range")) } := by
  simp only [get_matrix, tryBody]
  rw [if_neg (by omega), if_neg (by simp), hparse]
  simp only []
  rw [ht]
  rfl

theorem get_matrix_ok_eval (url body : List Char) (matrix : List (List Int)) (res : List Int)
    (hparse : get_matrix_parse body = .ok matrix)
    (ht : counterclockwise_traversal matrix = some res) :
    get_matrix url (.response 200 body) = { requests := 1, logs := [], result := .ok res } := by
  simp only [get_matrix, tryBody]
  rw [if_neg (by omega), if_neg (by simp), hparse]
  simp only []
  rw [ht]

/-- Every message built by the handler chain contains the locator. -/
theorem exceptMsg_contains_url (url : List Char) (e : PyExc) :
    containsSub url (exceptMsg url e) := by
  cases e with
  | clientConnectionError s =>
    show containsSub url
      (chars "Failed to connect to the server at " ++ url ++ chars ". Error: " ++ s)
    exact containsSub_appendL _ _ _ (containsSub_appendL _ _ _
      (containsSub_appendR _ _ _ (containsSub_refl url)))
  | clientResponseError s =>
    show containsSub url
      (chars "Received unexpected response from the server at " ++ url ++
        chars ". Error: " ++ s)
    exact containsSub_appendL _ _ _ (containsSub_appendL _ _ _
      (containsSub_appendR _ _ _ (containsSub_refl url)))
  | serverTimeoutError s =>
    show containsSub url
      (chars "Failed to connect to the server at " ++ url ++ chars ". Error: " ++ s)
    exact containsSub_appendL _ _ _ (containsSub_appendL _ _ _
      (containsSub_appendR _ _ _ (containsSub_refl url)))
  | serverDisconnectedError s =>
    show containsSub url
      (chars "Failed to connect to the server at " ++ url ++ chars ". Error: " ++ s)
    exact containsSub_appendL _ _ _ (containsSub_appendL _ _ _
      (containsSub_appendR _ _ _ (containsSub_refl url)))
  | asyncioTimeoutError =>
    show containsSub url (chars "Connection timeout while fetching matrix from " ++ url)
    exact containsSub_appendR _ _ _ (containsSub_refl url)
  | valueError s =>
    show containsSub url
      (chars "An error occurred while fetching matrix from " ++ url ++ chars ". Error: " ++ s)
    exact containsSub_appendL _ _ _ (containsSub_appendL _ _ _
      (containsSub_appendR _ _ _ (containsSub_refl url)))
  | indexError s =>
    show containsSub url
      (chars "An error occurred while fetching matrix from " ++ url ++ chars ". Error: " ++ s)
    exact containsSub_appendL _ _ _ (containsSub_appendL _ _ _
      (containsSub_appendR _ _ _ (containsSub_refl url)))
  | otherException s =>
    show containsSub url
      (chars "An error occurred while fetching matrix from " ++ url ++ chars ". Error: " ++ s)
    exact containsSub_appendL _ _ _ (containsSub_appendL _ _ _
      (containsSub_appendR _ _ _ (containsSub_refl url)))

/-- Every message built by the handler chain contains the `str` text of
the underlying exception. -/
theorem exceptMsg_contains_cause (url : List Char) (e : PyExc) :
    containsSub (excStr e) (exceptMsg url e) := by
  cases e with
  | asyncioTimeoutError => exact containsSub_nil _
  | clientConnectionError s =>
    exact containsSub_appendR _ _ _ (containsSub_refl s)
  | clientResponseError s =>
    exact containsSub_appendR _ _ _ (containsSub_refl s)
  | serverTimeoutError s =>
    exact containsSub_appendR _ _ _ (containsSub_refl s)
  | serverDisconnectedError s =>
    exact containsSub_appendR _ _ _ (containsSub_refl s)
  | valueError s =>
    exact containsSub_appendR _ _ _ (containsSub_refl s)
  | indexError s =>
    exact containsSub_appendR _ _ _ (containsSub_refl s)
  | otherException s =>
    exact containsSub_appendR _ _ _ (containsSub_refl s)

/-! ### Claims about the gateway -/

/-- C5: a response with status at least 500 makes `get_matrix` fail with
the normalized error whose message contains the text "Server error" and
the decimal status code; a response whose status is below 500 and not 200
makes it fail with the normalized error whose message reports the
unexpected status ("Failed to fetch", "Status code") and contains the
status code. In both cases the body is never parsed (the whole call is
unchanged under any replacement of the body) and no result is returned. -/
theorem get_matrix_status_errors (url body : List Char) (status : Nat) :
    (500 ≤ status →
      ∃ msg, (get_matrix url (.response status body)).result = .error (.valueError msg) ∧
        containsSub (chars "Server error") msg ∧ containsSub (natChars status) msg ∧
        ∀ body', get_matrix url (.response status body) =
          get_matrix url (.response status body')) ∧
    (status < 500 → status ≠ 200 →
      ∃ msg, (get_matrix url (.response status body)).result = .error (.valueError msg) ∧
        containsSub (chars "Failed to fetch") msg ∧ containsSub (chars "Status code") msg ∧
        containsSub (natChars status) msg ∧
        ∀ body', get_matrix url (.response status body) =
          get_matrix url (.response status body')) := by
  constructor
  · intro h5
    rw [get_matrix_ge500_eval url body status h5]
    refine ⟨_, rfl, ?_, ?_, ?_⟩
    · apply containsSub_appendR
      apply containsSub_appendL
      apply containsSub_appendL
      apply containsSub_appendL
      exact ⟨[], chars " occurred while fetching matrix from ", by rfl⟩
    · apply containsSub_appendR
      apply containsSub_appendR
      exact containsSub_refl _
    · intro body'
      rw [get_matrix_ge500_eval url body' status h5]
  · intro h5 h200
    rw [get_matrix_badstatus_eval url body status (by omega) h200]
    refine ⟨_, rfl, ?_, ?_, ?_, ?_⟩
    · apply containsSub_appendR
      apply containsSub_appendL
      apply containsSub_appendL
      apply containsSub_appendL
      exact ⟨[], chars " matrix from ", by rfl⟩
    · apply containsSub_appendR
      apply containsSub_appendL
      apply containsSub_appendR
      exact ⟨chars ". ", chars ": ", by rfl⟩
    · apply containsSub_appendR
      apply containsSub_appendR
      exact containsSub_refl _
    · intro body'
      rw [get_matrix_badstatus_eval url body' status (by omega) h200]

/-- Witness for C5 with a 503 response and with a 404 response. -/
theorem get_matrix_status_errors_witness :
    (∃ msg, (get_matrix (chars "u") (.response 503 (chars "b"))).result =
        .error (.valueError msg) ∧
      containsSub (chars "Server error") msg ∧ containsSub (natChars 503) msg ∧
      ∀ body', get_matrix (chars "u") (.response 503 (chars "b")) =
        get_matrix (chars "u") (.response 503 body')) ∧
    (∃ msg, (get_matrix (chars "u") (.response 404 (chars "b"))).result =
        .error (.valueError msg) ∧
      containsSub (chars "Failed to fetch") msg ∧ containsSub (chars "Status code") msg ∧
      containsSub (natChars 404) msg ∧
      ∀ body', get_matrix (chars "u") (.response 404 (chars "b")) =
        get_matrix (chars "u") (.response 404 body')) :=
  ⟨(get_matrix_status_errors (chars "u") (chars "b") 503).1 (by omega),
   (get_matrix_status_errors (chars "u") (chars "b") 404).2 (by omega) (by omega)⟩

/-- C6: whatever the failure cause, the error surfaced by `get_matrix` is
the single normalized kind `ValueError`, its message contains the
locator, the message is logged (once) before being surfaced, exactly one
outbound request is made, and when the failure is a raised exception the
message also contains the `str` text of the root cause. -/
theorem get_matrix_normalizes_failures (url : List Char) (outcome : FetchOutcome)
    (e' : PyExc) (herr : (get_matrix url outcome).result = .error e') :
    (get_matrix url outcome).requests = 1 ∧
    ∃ msg, e' = .valueError msg ∧ (get_matrix url outcome).logs = [msg] ∧
      containsSub url msg ∧
      ∀ e, outcome = .raised e → containsSub (excStr e) msg := by
  constructor
  · cases htb : tryBody url outcome with
    | ok res => simp [get_matrix, htb]
    | error e => simp [get_matrix, htb]
  · cases outcome with
    | raised e =>
      refine ⟨exceptMsg url e, (Except.error.inj herr).symm, rfl,
        exceptMsg_contains_url url e, ?_⟩
      intro e2 he2
      injection he2 with he2'
      rw [← he2']
      exact exceptMsg_contains_cause url e
    | response status body =>
      by_cases h5 : 500 ≤ status
      · rw [get_matrix_ge500_eval url body status h5] at herr
        refine ⟨_, (Except.error.inj herr).symm, ?_, ?_, ?_⟩
        · rw [get_matrix_ge500_eval url body status h5]
        · exact containsSub_appendL _ _ _ (containsSub_appendL _ _ _
            (containsSub_appendR _ _ _ (containsSub_refl url)))
        · intro e2 he2
          exact absurd he2 (by simp)
      · by_cases h200 : status = 200
        · subst h200
          cases hp : get_matrix_parse body with
          | error pm =>
            rw [get_matrix_parse_error_eval url body pm hp] at herr
            refine ⟨_, (Except.error.inj herr).symm, ?_, ?_, ?_⟩
            · rw [get_matrix_parse_error_eval url body pm hp]
            · exact containsSub_appendL _ _ _ (containsSub_appendL _ _ _
                (containsSub_appendR _ _ _ (containsSub_refl url)))
            · intro e2 he2
              exact absurd he2 (by simp)
          | ok matrix =>
            cases ht : counterclockwise_traversal matrix with
            | none =>
              rw [get_matrix_traversal_fail_eval url body matrix hp ht] at herr
              refine ⟨_, (Except.error.inj herr).symm, ?_, ?_, ?_⟩
              · rw [get_matrix_traversal_fail_eval url body matrix hp ht]
              · exact containsSub_appendL _ _ _ (containsSub_appendL _ _ _
                  (containsSub_appendR _ _ _ (containsSub_refl url)))
              · intro e2 he2
                exact absurd he2 (by simp)
            | some res =>
              rw [get_matrix_ok_eval url body matrix res hp ht] at herr
              exact absurd herr (by simp)
        · rw [get_matrix_badstatus_eval url body status h5 h200] at herr
          refine ⟨_, (Except.error.inj herr).symm, ?_, ?_, ?_⟩
          · rw [get_matrix_badstatus_eval url body status h5 h200]
          · exact containsSub_appendL _ _ _ (containsSub_appendL _ _ _
              (containsSub_appendR _ _ _ (containsSub_refl url)))
          · intro e2 he2
            exact absurd he2 (by simp)

/-- Witness for C6 at a concrete connection failure. -/
theorem get_matrix_normalizes_failures_witness :
    (get_matrix (chars "u") (.raised (.clientConnectionError (chars "boom")))).requests = 1 ∧
    ∃ msg, PyExc.valueError (chars "Failed to connect to the server at " ++ chars "u" ++
        chars ". Error: " ++ chars "boom") = .valueError msg ∧
      (get_matrix (chars "u") (.raised (.clientConnectionError (chars "boom")))).logs = [msg] ∧
      containsSub (chars "u") msg ∧
      ∀ e, FetchOutcome.raised (.clientConnectionError (chars "boom")) = .raised e →
        containsSub (excStr e) msg :=
  get_matrix_normalizes_failures (chars "u")
    (.raised (.clientConnectionError (chars "boom")))
    (.valueError (chars "Failed to connect to the server at " ++ chars "u" ++
      chars ". Error: " ++ chars "boom")) (by rfl)

/-- C7: a body with a non-numeric field makes the inline parse raise the
`int` conversion `ValueError`; that exception is matched by none of the
five specific transport handlers, falls through to the final catch-all,
and surfaces as the normalized error together with its log record rather
than crashing the process or being silently skipped. -/
theorem parse_error_generic_bucket (url body pm : List Char)
    (hparse : get_matrix_parse body = .error pm) :
    isClientConnectionError (.valueError pm) = false ∧
    isClientResponseError (.valueError pm) = false ∧
    isServerTimeoutError (.valueError pm) = false ∧
    isServerDisconnectedError (.valueError pm) = false ∧
    isAsyncioTimeout (.valueError pm) = false ∧
    (get_matrix url (.response 200 body)).result =
      .error (.valueError (chars "An error occurred while fetching matrix from " ++ url ++
        chars ". Error: " ++ pm)) ∧
    (get_matrix url (.response 200 body)).logs =
      [chars "An error occurred while fetching matrix from " ++ url ++
        chars ". Error: " ++ pm] := by
  refine ⟨rfl, rfl, rfl, rfl, rfl, ?_, ?_⟩
  · rw [get_matrix_parse_error_eval url body pm hparse]
  · rw [get_matrix_parse_error_eval url body pm hparse]

/-- Witness for C7 at a concrete body with a non-numeric field. -/
theorem parse_error_generic_bucket_witness :
    isClientConnectionError (.valueError (intErrMsg (chars "x"))) = false ∧
    isClientResponseError (.valueError (intErrMsg (chars "x"))) = false ∧
    isServerTimeoutError (.valueError (intErrMsg (chars "x"))) = false ∧
    isServerDisconnectedError (.valueError (intErrMsg (chars "x"))) = false ∧
    isAsyncioTimeout (.valueError (intErrMsg (chars "x"))) = false ∧
    (get_matrix (chars "u") (.response 200 (chars "|1|x|2|"))).result =
      .error (.valueError (chars "An error occurred while fetching matrix from " ++
        chars "u" ++ chars ". Error: " ++ intErrMsg (chars "x"))) ∧
    (get_matrix (chars "u") (.response 200 (chars "|1|x|2|"))).logs =
      [chars "An error occurred while fetching matrix from " ++ chars "u" ++
        chars ". Error: " ++ intErrMsg (chars "x")] :=
  parse_error_generic_bucket (chars "u") (chars "|1|x|2|") (intErrMsg (chars "x")) (by rfl)
